import Mathlib

/-!
# gnome-go/option: the `Option[T]` container of `option.go`

A shallow embedding of `option.go`.

* Go types are named by codes `i : ι` and interpreted by `ty : ι → Type`; the type
  parameter `T` of the source is a code `i`, a value of type `T` is a `ty i`.
* The heap holds, for every code, the list of cells of that type allocated so far.  A
  pointer `*T` is `nil` or the index of a cell.  `&value` on a parameter allocates a new
  cell at the end of the list.
* A Go function that can panic, read or extend the heap is a state-passing function
  `Heap ty → Except Fault (α × Heap ty)`.  Callbacks (`func(T) U`, `func() U`, ...) are
  arbitrary functions of that shape: they may panic and they may change the heap.
-/

namespace option

/-- Why a run stops without a result. -/
inductive Fault where
  /-- The call `panic(msg)` with a string. -/
  | panic (msg : String)
  /-- The run-time panic of `*p` when `p` is nil. -/
  | nilDereference
  /-- An address past the end of the heap.  Go's memory safety rules such pointers out;
  the model answers with a fault of its own kind. -/
  | unallocated
  deriving DecidableEq, Repr

/-- A pointer `*T`: nil, or the address of a cell of type `T`. -/
inductive Ptr {ι : Type} (i : ι) where
  | nil
  | addr (a : Nat)
  deriving DecidableEq, Repr

/-- The heap: for every type code the cells of that type, in allocation order. -/
abbrev Heap {ι : Type} (ty : ι → Type) := (i : ι) → List (ty i)

/-- A Go computation over the heap that returns an `α` or panics. -/
abbrev Exec {ι : Type} (ty : ι → Type) (α : Type) := StateT (Heap ty) (Except Fault) α

section
variable {ι : Type} [DecidableEq ι] {ty : ι → Type}

/-- The pointer indirection `*p`. -/
def load {i : ι} (p : Ptr i) : Exec ty (ty i) := fun h =>
  match p with
  | Ptr.nil => Except.error Fault.nilDereference
  | Ptr.addr a =>
    if hlt : a < (h i).length then Except.ok ((h i)[a], h) else Except.error Fault.unallocated

/-- The assignment `*p = v`. -/
def store {i : ι} (p : Ptr i) (v : ty i) : Exec ty Unit := fun h =>
  match p with
  | Ptr.nil => Except.error Fault.nilDereference
  | Ptr.addr a =>
    if a < (h i).length then Except.ok ((), Function.update h i ((h i).set a v))
    else Except.error Fault.unallocated

/-- The address `&v` of a variable that outlives its function: a new cell holding `v`.
(For a `T` of size zero Go may hand out one shared address instead of a new one; such a `T`
has a single value, so loads and stores cannot tell the two apart.  No statement below says
that two addresses differ.) -/
def alloc {i : ι} (v : ty i) : Exec ty (Ptr i) := fun h =>
  Except.ok (Ptr.addr (h i).length, Function.update h i (h i ++ [v]))

/-- The statement `panic(msg)`. -/
def goPanic {α : Type} (msg : String) : Exec ty α := fun _ =>
  Except.error (Fault.panic msg)

end

/-- The source's `type enum int`. -/
abbrev enum := Int

/-- The constant `none enum = iota`. -/
def none : enum := 0

/-- The constant `some`, the second of the `iota` block. -/
def some : enum := 1

/-- The source's `type Option[T any] struct { value *T; state enum }`. -/
structure Option {ι : Type} (i : ι) where
  value : Ptr i
  state : enum
  deriving DecidableEq, Repr

section
variable {ι : Type} [DecidableEq ι] {ty : ι → Type}

/-- The composite literal `Option[T]{}`, Go's zero value of the struct: every field zero. -/
def Option.zero {i : ι} : Option i :=
  { value := Ptr.nil, state := 0 }

/-- `None`: `return Option[T]{state: none}`; the field left out is nil. -/
def None {i : ι} : Option i :=
  { value := Ptr.nil, state := none }

/-- `Some`: `return Option[T]{value: &value, state: some}`. -/
def Some {i : ι} (value : ty i) : Exec ty (Option i) := do
  let p ← alloc value
  return { value := p, state := some }

/-- `From`: None for a nil pointer, else `Some(*value)`. -/
def From {i : ι} (value : Ptr i) : Exec ty (Option i) := do
  if value = Ptr.nil then
    return None
  let v ← load value
  Some v

/-- `IsNone`: `self.state == none`. -/
def Option.IsNone {i : ι} (self : Option i) : Bool :=
  self.state == none

/-- `IsSome`: `self.state == some`. -/
def Option.IsSome {i : ι} (self : Option i) : Bool :=
  self.state == some

/-- `IsSomeAnd`. -/
def Option.IsSomeAnd {i : ι} (self : Option i) (f : ty i → Exec ty Bool) : Exec ty Bool := do
  if self.state = none then
    return false
  let v ← load self.value
  f v

/-- `And`. -/
def Option.And {i : ι} (self : Option i) (opt : Option i) : Option i :=
  if self.state = none then None else opt

/-- `AndThen`. -/
def Option.AndThen {i : ι} (o : Option i) (f : ty i → Exec ty (Option i)) :
    Exec ty (Option i) := do
  if o.state = none then
    return None
  let v ← load o.value
  f v

/-- `Map`. -/
def Map {i j : ι} (self : Option i) (f : ty i → Exec ty (ty j)) : Exec ty (Option j) := do
  if self.state = none then
    return None
  let v ← load self.value
  let u ← f v
  Some u

/-- `MapOr`. -/
def MapOr {i j : ι} (self : Option i) (d : ty j) (f : ty i → Exec ty (ty j)) :
    Exec ty (ty j) := do
  if self.state = none then
    return d
  let v ← load self.value
  f v

/-- `MapOrElse`. -/
def MapOrElse {i j : ι} (self : Option i) (d : Unit → Exec ty (ty j))
    (f : ty i → Exec ty (ty j)) : Exec ty (ty j) := do
  if self.state = none then
    return ← d ()
  let v ← load self.value
  f v

/-- `Or`. -/
def Option.Or {i : ι} (self : Option i) (opt : Option i) : Option i :=
  if self.state = none then opt else self

/-- `OrElse`. -/
def Option.OrElse {i : ι} (self : Option i) (f : Unit → Exec ty (Option i)) :
    Exec ty (Option i) := do
  if self.state = none then
    return ← f ()
  return self

/-- `Inspect`. -/
def Option.Inspect {i : ι} (self : Option i) (f : ty i → Exec ty Unit) : Exec ty Unit := do
  if self.state = some then
    let v ← load self.value
    f v

/-- `Expect`. -/
def Option.Expect {i : ι} (self : Option i) (msg : String) : Exec ty (ty i) := do
  if self.state = none then
    goPanic msg
  else
    load self.value

/-- `Filter`. -/
def Option.Filter {i : ι} (self : Option i) (f : ty i → Exec ty Bool) :
    Exec ty (Option i) := do
  if self.state = none then
    return None
  let v ← load self.value
  if (← f v) then
    return self
  return None

/-- `Unwrap`. -/
def Option.Unwrap {i : ι} (self : Option i) : Exec ty (ty i) := do
  if self.state = none then
    goPanic "unwrap a none option"
  else
    load self.value

/-- `UnwrapOr`. -/
def Option.UnwrapOr {i : ι} (self : Option i) (d : ty i) : Exec ty (ty i) := do
  if self.state = none then
    return d
  load self.value

/-- `UnwrapOrElse`. -/
def Option.UnwrapOrElse {i : ι} (self : Option i) (f : Unit → Exec ty (ty i)) :
    Exec ty (ty i) := do
  if self.state = none then
    return ← f ()
  load self.value

/-- `UnwrapUnsafe`: `return *self.value`, the state is not read. -/
def Option.UnwrapUnsafe {i : ι} (self : Option i) : Exec ty (ty i) :=
  load self.value

/-- A pointer is allocated when it is the address of a cell of the heap. -/
def Ptr.allocated {i : ι} (h : Heap ty) : Ptr i → Bool
  | Ptr.nil => false
  | Ptr.addr a => decide (a < (h i).length)

/-- Tag and payload agree: the tag is `none` and the payload pointer is nil, or the tag is
`some` and the payload pointer is the address of a cell.  `None`, `Some` and `From` return
such Options, and outside the package the fields cannot be set any other way. -/
def Option.Inv {i : ι} (h : Heap ty) (o : Option i) : Prop :=
  (o.state = none ∧ o.value = Ptr.nil) ∨ (o.state = some ∧ o.value.allocated h = true)

instance {i : ι} (h : Heap ty) (o : Option i) : Decidable (o.Inv h) := by
  unfold Option.Inv; exact inferInstance

/-- The heap `h1` has every cell of `h`: it has only grown.  Go frees no cell that can
still be reached, so every run takes a heap to one that has grown. -/
def Heap.Grows (h h1 : Heap ty) : Prop :=
  ∀ k : ι, (h k).length ≤ (h1 k).length

/-- A callback `func(x T)` that works on its argument.  The call copies the argument into
the new variable `x`; the body reads the argument and the heap as it likes and then panics,
or returns having left behind new cells of type `T` (the variable `x` with whatever was last
assigned to it, and what the body allocated) and the cells of every other type in any state:
written through pointers the argument holds, or otherwise.  It is given no pointer to a
cell of type `T` that was there before the call. -/
def callbackOnCopy {i : ι} (body : ty i → Heap ty → Except Fault (List (ty i) × Heap ty)) :
    ty i → Exec ty Unit := fun v h =>
  match body v h with
  | Except.error e => Except.error e
  | Except.ok (cells, h1) => Except.ok ((), Function.update h1 i (h i ++ cells))

end

/-! ## Example data -/

/-- An example interpretation: one type code, read as Go's `int`. -/
abbrev exTy : Unit → Type := fun _ => Int

/-- An example heap: one `int` cell holding 10, as `Some(10)` leaves it. -/
def exHeap : Heap exTy := fun _ => [10]

/-- The Option that `Some(10)` returns on the empty heap. -/
def exSome : Option () := { value := Ptr.addr 0, state := some }

/-! ## Running computations -/

section
variable {ι : Type} [DecidableEq ι] {ty : ι → Type}

theorem some_ne_none : some ≠ none := by decide

omit [DecidableEq ι] in
theorem Exec.bind_apply {α β : Type} (x : Exec ty α) (f : α → Exec ty β) (h : Heap ty) :
    (x >>= f) h = match x h with
      | Except.ok (a, h1) => f a h1
      | Except.error e => Except.error e := by
  show (x h >>= fun p => f p.1 p.2) = _
  cases x h <;> rfl

omit [DecidableEq ι] in
theorem Exec.pure_apply {α : Type} (a : α) (h : Heap ty) :
    (pure a : Exec ty α) h = Except.ok (a, h) := rfl

theorem Some_run {i : ι} (v : ty i) (h : Heap ty) :
    Some v h = Except.ok
      ({ value := Ptr.addr (h i).length, state := some }, Function.update h i (h i ++ [v])) :=
  rfl

theorem load_new_cell {i : ι} (v : ty i) (h : Heap ty) :
    load (Ptr.addr (h i).length : Ptr i) (Function.update h i (h i ++ [v]))
      = Except.ok (v, Function.update h i (h i ++ [v])) := by
  simp [load]

omit [DecidableEq ι] in
theorem load_allocated {i : ι} (p : Ptr i) (h : Heap ty) (hp : p.allocated h = true) :
    ∃ v, load p h = Except.ok (v, h) := by
  cases p with
  | nil => simp [Ptr.allocated] at hp
  | addr a =>
    have hlt : a < (h i).length := by simpa [Ptr.allocated] using hp
    exact ⟨(h i)[a], by simp [load, hlt]⟩

theorem Map_of_new_cell {i j : ι} (f : ty i → Exec ty (ty j)) (v : ty i) (h : Heap ty) :
    Map ({ value := Ptr.addr (h i).length, state := some } : Option i) f
        (Function.update h i (h i ++ [v]))
      = (f v >>= fun u => Some u) (Function.update h i (h i ++ [v])) := by
  simp [Map, some_ne_none, Exec.bind_apply, Exec.pure_apply, load_new_cell]

theorem MapOr_of_new_cell {i j : ι} (d : ty j) (f : ty i → Exec ty (ty j)) (v : ty i)
    (h : Heap ty) :
    MapOr ({ value := Ptr.addr (h i).length, state := some } : Option i) d f
        (Function.update h i (h i ++ [v]))
      = f v (Function.update h i (h i ++ [v])) := by
  simp [MapOr, some_ne_none, Exec.bind_apply, load_new_cell]

end

/-! ## Extraction -/

/-- C1: for every value `v`, `Some(v).Unwrap()` returns `v` (and leaves the heap as `Some`
left it); `None[T]().Unwrap()` returns nothing: on every heap and for every `T` it panics
with the string "unwrap a none option". -/
theorem Unwrap_Some_returns_None_panics {ι : Type} [DecidableEq ι] {ty : ι → Type} :
    (∀ (i : ι) (v : ty i) (h : Heap ty), ∃ s h1,
        Some v h = Except.ok (s, h1) ∧ s.Unwrap h1 = Except.ok (v, h1)) ∧
    (∀ (i : ι) (h : Heap ty),
        (None : Option i).Unwrap h = Except.error (Fault.panic "unwrap a none option")) := by
  refine ⟨fun i v h => ⟨_, _, Some_run v h, ?_⟩, fun i h => rfl⟩
  simp [Option.Unwrap, some_ne_none, load_new_cell]

/-- C2: for every message `msg` and value `v`, `Some(v).Expect(msg)` returns `v` and does
not panic; `None[T]().Expect(msg)` panics and the panic value is `msg` itself. -/
theorem Expect_Some_returns_None_panics_with_msg {ι : Type} [DecidableEq ι] {ty : ι → Type} :
    (∀ (i : ι) (msg : String) (v : ty i) (h : Heap ty), ∃ s h1,
        Some v h = Except.ok (s, h1) ∧ s.Expect msg h1 = Except.ok (v, h1)) ∧
    (∀ (i : ι) (msg : String) (h : Heap ty),
        (None : Option i).Expect msg h = Except.error (Fault.panic msg)) := by
  refine ⟨fun i msg v h => ⟨_, _, Some_run v h, ?_⟩, fun i msg h => rfl⟩
  simp [Option.Expect, some_ne_none, load_new_cell]

/-- C3: `UnwrapUnsafe` never reads the tag, and still `Some(v).UnwrapUnsafe()` returns `v`;
on `None`, on the zero value and on `From(nil)` it panics with the nil dereference; and on
every Option whose tag and payload agree (all that the API hands out) it panics when the
Option is none, returns when it is not, and returns a result exactly when `Unwrap` returns
that same result. -/
theorem UnwrapUnsafe_fails_on_empty_agrees_with_Unwrap {ι : Type} [DecidableEq ι] {ty : ι → Type} :
    (∀ (i : ι) (v : ty i) (h : Heap ty), ∃ s h1,
        Some v h = Except.ok (s, h1) ∧ s.UnwrapUnsafe h1 = Except.ok (v, h1)) ∧
    (∀ (i : ι) (h : Heap ty),
        (None : Option i).UnwrapUnsafe h = Except.error Fault.nilDereference ∧
        (Option.zero : Option i).UnwrapUnsafe h = Except.error Fault.nilDereference ∧
        ∃ o : Option i, From Ptr.nil h = Except.ok (o, h) ∧
          o.UnwrapUnsafe h = Except.error Fault.nilDereference) ∧
    (∀ (i : ι) (o : Option i) (h : Heap ty), o.Inv h →
        (o.IsNone = true → o.UnwrapUnsafe h = Except.error Fault.nilDereference) ∧
        (o.IsNone = false → ∃ v, o.UnwrapUnsafe h = Except.ok (v, h)) ∧
        (∀ r, o.UnwrapUnsafe h = Except.ok r ↔ o.Unwrap h = Except.ok r)) := by
  refine ⟨fun i v h => ⟨_, _, Some_run v h, load_new_cell v h⟩,
    fun i h => ⟨rfl, rfl, None, rfl, rfl⟩, ?_⟩
  intro i o h hinv
  obtain ⟨p, st⟩ := o
  rcases hinv with ⟨hs, hp⟩ | ⟨hs, hp⟩
  · simp only at hs hp
    subst hs hp
    refine ⟨fun _ => rfl, fun hn => ?_, fun r => ?_⟩
    · simp [Option.IsNone] at hn
    · simp [Option.UnwrapUnsafe, Option.Unwrap, load, goPanic]
  · simp only at hs hp
    subst hs
    refine ⟨fun hn => ?_, fun _ => load_allocated p h hp, fun r => ?_⟩
    · simp [Option.IsNone, some_ne_none] at hn
    · simp [Option.UnwrapUnsafe, Option.Unwrap, some_ne_none]

/-- C3 at the Option of `Some(10)`: its tag and payload agree, it is not none, and
`UnwrapUnsafe` returns 10 exactly when `Unwrap` does. -/
theorem UnwrapUnsafe_fails_on_empty_agrees_with_Unwrap_witness :
    exSome.Inv exHeap ∧ exSome.IsNone = false ∧
      (∃ v, exSome.UnwrapUnsafe exHeap = Except.ok (v, exHeap)) ∧
      (exSome.UnwrapUnsafe exHeap = Except.ok (10, exHeap)
        ↔ exSome.Unwrap exHeap = Except.ok (10, exHeap)) :=
  ⟨by decide, by decide,
    (UnwrapUnsafe_fails_on_empty_agrees_with_Unwrap.2.2 () exSome exHeap (by decide)).2.1
      (by decide),
    (UnwrapUnsafe_fails_on_empty_agrees_with_Unwrap.2.2 () exSome exHeap (by decide)).2.2
      (10, exHeap)⟩

/-! ## Queries -/

/-- C4: for every value `v` of every type (no value is excluded, the zero value of the type
included), `Some(v).IsSome()` is true and `Some(v).IsNone()` is false; `None[T]().IsSome()`
is false and `None[T]().IsNone()` is true. -/
theorem IsSome_IsNone_of_Some_and_None {ι : Type} [DecidableEq ι] {ty : ι → Type} :
    (∀ (i : ι) (v : ty i) (h : Heap ty), ∃ s h1,
        Some v h = Except.ok (s, h1) ∧ s.IsSome = true ∧ s.IsNone = false) ∧
    (∀ i : ι, (None : Option i).IsSome = false ∧ (None : Option i).IsNone = true) := by
  refine ⟨fun i v h => ⟨_, _, Some_run v h, ?_, ?_⟩, fun i => ⟨rfl, rfl⟩⟩
  · simp [Option.IsSome]
  · simp [Option.IsNone, some_ne_none]

/-! ## Transformation -/

/-- C5: for every callback `f` and value `v`, the run of `Map(Some(v), f)` is one run of
`f` on `v` followed by `Some` of its result, so `f` is applied exactly once; when that run
of `f` returns `u` the result is a present Option whose `Unwrap()` returns `u`, and when it
panics `Map` panics alike.  `Map(None[T](), f)` returns `None[U]()` on an unchanged heap
whatever `f` is, so `f` is not run. -/
theorem Map_Some_applies_once_None_skips {ι : Type} [DecidableEq ι] {ty : ι → Type} :
    (∀ (i j : ι) (f : ty i → Exec ty (ty j)) (v : ty i) (h : Heap ty), ∃ s h1,
        Some v h = Except.ok (s, h1) ∧
        Map s f h1 = (f v >>= fun u => Some u) h1 ∧
        (match f v h1 with
          | Except.ok (u, _) => ∃ r h3, Map s f h1 = Except.ok (r, h3) ∧
              r.IsSome = true ∧ r.Unwrap h3 = Except.ok (u, h3)
          | Except.error e => Map s f h1 = Except.error e)) ∧
    (∀ (i j : ι) (f : ty i → Exec ty (ty j)) (h : Heap ty),
        Map (None : Option i) f h = Except.ok ((None : Option j), h)) := by
  refine ⟨fun i j f v h => ⟨_, _, Some_run v h, Map_of_new_cell f v h, ?_⟩,
    fun i j f h => rfl⟩
  rw [Map_of_new_cell, Exec.bind_apply]
  cases hf : f v (Function.update h i (h i ++ [v])) with
  | error e => rfl
  | ok r =>
    obtain ⟨u, h2⟩ := r
    refine ⟨_, _, Some_run u h2, ?_, ?_⟩
    · simp [Option.IsSome]
    · simp [Option.Unwrap, some_ne_none, load_new_cell]

/-- C6: for every default `d`, callback `f` and value `v`, `MapOr(Some(v), d, f)` is the run
of `f` on `v`, result and effects alike (for a function `g` without effects it returns
`g v`); `MapOr(None[T](), d, f)` returns `d` on an unchanged heap whatever `f` is, so `f` is
not run. -/
theorem MapOr_Some_applies_None_returns_default {ι : Type} [DecidableEq ι] {ty : ι → Type} :
    (∀ (i j : ι) (d : ty j) (f : ty i → Exec ty (ty j)) (v : ty i) (h : Heap ty), ∃ s h1,
        Some v h = Except.ok (s, h1) ∧ MapOr s d f h1 = f v h1) ∧
    (∀ (i j : ι) (d : ty j) (g : ty i → ty j) (v : ty i) (h : Heap ty), ∃ s h1,
        Some v h = Except.ok (s, h1) ∧
        MapOr s d (fun x => (pure (g x) : Exec ty (ty j))) h1 = Except.ok (g v, h1)) ∧
    (∀ (i j : ι) (d : ty j) (f : ty i → Exec ty (ty j)) (h : Heap ty),
        MapOr (None : Option i) d f h = Except.ok (d, h)) := by
  refine ⟨fun i j d f v h => ⟨_, _, Some_run v h, ?_⟩,
    fun i j d g v h => ⟨_, _, Some_run v h, ?_⟩, fun i j d f h => rfl⟩
  · exact MapOr_of_new_cell d f v h
  · rw [MapOr_of_new_cell]
    rfl

/-! ## Chaining -/

/-- C7: for every callback `f` returning an Option and every value `v`, `Some(v).AndThen(f)`
is the run of `f` on `v`: the same Option, not wrapped again, and the effects of one call;
`None().AndThen(f)` returns `None` on an unchanged heap whatever `f` is, so `f` is not
run. -/
theorem AndThen_Some_is_f_None_skips {ι : Type} [DecidableEq ι] {ty : ι → Type} :
    (∀ (i : ι) (f : ty i → Exec ty (Option i)) (v : ty i) (h : Heap ty), ∃ s h1,
        Some v h = Except.ok (s, h1) ∧ s.AndThen f h1 = f v h1) ∧
    (∀ (i : ι) (f : ty i → Exec ty (Option i)) (h : Heap ty),
        (None : Option i).AndThen f h = Except.ok (None, h)) := by
  refine ⟨fun i f v h => ⟨_, _, Some_run v h, ?_⟩, fun i f h => rfl⟩
  simp [Option.AndThen, some_ne_none, Exec.bind_apply, load_new_cell]

/-- C8: bind is associative: for every Option `a` (present or not) and all callbacks `f`, `g`
from `T` to `Option[T]`, running `a.AndThen(f)` and then `AndThen(g)` on its result is the
same computation (result, panic and heap) as `a.AndThen` of the callback that runs `f(v)`
and then `AndThen(g)` on its result. -/
theorem AndThen_assoc {ι : Type} {ty : ι → Type} {i : ι} (a : Option i)
    (f g : ty i → Exec ty (Option i)) :
    (a.AndThen f >>= fun b => b.AndThen g)
      = a.AndThen (fun v => f v >>= fun b => b.AndThen g) := by
  funext h
  by_cases hs : a.state = none
  · simp [Option.AndThen, hs, Exec.bind_apply, Exec.pure_apply]
    rfl
  · simp only [Option.AndThen, hs, Exec.bind_apply, Exec.pure_apply, if_false]
    cases load a.value h with
    | error e => rfl
    | ok r => rfl

/-- C9: for every Option `b` and value `v`, `None[T]().Or(b)` is `b`, and `Some(v).Or(b)` is
the receiver, field for field; `a.Or(a)` is `a` for every `a`, present ones included. -/
theorem Or_identity_laws {ι : Type} [DecidableEq ι] {ty : ι → Type} :
    (∀ (i : ι) (b : Option i), (None : Option i).Or b = b) ∧
    (∀ (i : ι) (v : ty i) (b : Option i) (h : Heap ty), ∃ s h1,
        Some v h = Except.ok (s, h1) ∧ s.Or b = s) ∧
    (∀ (i : ι) (a : Option i), a.Or a = a) := by
  refine ⟨fun i b => rfl, fun i v b h => ⟨_, _, Some_run v h, ?_⟩, fun i a => ?_⟩
  · simp [Option.Or, some_ne_none]
  · simp [Option.Or]

/-- C10: for every Option `other`, `None[T]().And(other)` is `None`, and for every `v`,
`Some(v).And(other)` is `other`, field for field; for `a` with tag and payload in agreement
(all that the API hands out), `a.And(b)` is present exactly when `a` and `b` both are, and
then it is `b` and `Unwrap` gives what it gives on `b`. -/
theorem And_short_circuits_to_second {ι : Type} [DecidableEq ι] {ty : ι → Type} :
    (∀ (i : ι) (other : Option i), (None : Option i).And other = None) ∧
    (∀ (i : ι) (v : ty i) (other : Option i) (h : Heap ty), ∃ s h1,
        Some v h = Except.ok (s, h1) ∧ s.And other = other) ∧
    (∀ (i : ι) (a b : Option i) (h : Heap ty), a.Inv h →
        ((a.And b).IsSome = true ↔ a.IsSome = true ∧ b.IsSome = true) ∧
        ((a.And b).IsSome = true → a.And b = b ∧ (a.And b).Unwrap h = b.Unwrap h)) := by
  refine ⟨fun i other => rfl, fun i v other h => ⟨_, _, Some_run v h, ?_⟩, ?_⟩
  · simp [Option.And, some_ne_none]
  · intro i a b h hinv
    rcases hinv with ⟨hs, _⟩ | ⟨hs, _⟩
    · simp [Option.And, hs, Option.IsSome, None, some_ne_none.symm]
    · simp [Option.And, hs, Option.IsSome, some_ne_none]

/-- C10 at `Some(10).And(Some(10))`: the receiver's tag and payload agree, and the result is
present exactly when both operands are. -/
theorem And_short_circuits_to_second_witness :
    exSome.Inv exHeap ∧
      ((exSome.And exSome).IsSome = true ↔ exSome.IsSome = true ∧ exSome.IsSome = true) :=
  ⟨by decide,
    (And_short_circuits_to_second.2.2 () exSome exSome exHeap (by decide)).1⟩

section
variable {ι : Type} {ty : ι → Type}

theorem Filter_run {i : ι} (o : Option i) (p : ty i → Exec ty Bool) (v : ty i) (h : Heap ty)
    (hs : o.state ≠ none) (hl : load o.value h = Except.ok (v, h)) :
    o.Filter p h = match p v h with
      | Except.ok (b, h2) => Except.ok (if b = true then o else None, h2)
      | Except.error e => Except.error e := by
  simp only [Option.Filter, hs, if_false, Exec.bind_apply, Exec.pure_apply, hl]
  cases p v h with
  | error e => rfl
  | ok r =>
    obtain ⟨b, h2⟩ := r
    cases b <;> rfl

end

/-! ## Filtering and fallbacks -/

/-- C11: for every predicate `p`, `None().Filter(p)` returns `None` on an unchanged heap
whatever `p` is, so `p` is not run; for every `v`, the run of `Some(v).Filter(p)` is one run
of `p` on `v`, after which the result is the receiver itself when `p` answered true and
`None` when it answered false (and a panic of `p` is passed on).  For a predicate `g`
without effects the receiver is returned, still holding `v`, when `g v` is true. -/
theorem Filter_keeps_on_true_drops_on_false {ι : Type} [DecidableEq ι] {ty : ι → Type} :
    (∀ (i : ι) (p : ty i → Exec ty Bool) (h : Heap ty),
        (None : Option i).Filter p h = Except.ok (None, h)) ∧
    (∀ (i : ι) (p : ty i → Exec ty Bool) (v : ty i) (h : Heap ty), ∃ s h1,
        Some v h = Except.ok (s, h1) ∧
        s.Filter p h1 = (match p v h1 with
          | Except.ok (b, h2) => Except.ok (if b = true then s else None, h2)
          | Except.error e => Except.error e)) ∧
    (∀ (i : ι) (g : ty i → Bool) (v : ty i) (h : Heap ty), ∃ s h1,
        Some v h = Except.ok (s, h1) ∧
        s.Filter (fun x => (pure (g x) : Exec ty Bool)) h1
          = Except.ok (if g v = true then s else None, h1) ∧
        s.Unwrap h1 = Except.ok (v, h1)) := by
  refine ⟨fun i p h => rfl, fun i p v h => ⟨_, _, Some_run v h, ?_⟩,
    fun i g v h => ⟨_, _, Some_run v h, ?_, ?_⟩⟩
  · exact Filter_run _ p v _ some_ne_none (load_new_cell v h)
  · rw [Filter_run _ _ v _ some_ne_none (load_new_cell v h)]
    rfl
  · simp [Option.Unwrap, some_ne_none, load_new_cell]

section
variable {ι : Type} {ty : ι → Type}

theorem load_of_Inv_some {i : ι} (o : Option i) (h : Heap ty) (hinv : o.Inv h)
    (hs : o.state ≠ none) : ∃ v, load o.value h = Except.ok (v, h) := by
  rcases hinv with ⟨hn, _⟩ | ⟨_, hp⟩
  · exact absurd hn hs
  · exact load_allocated o.value h hp

theorem Unwrap_run {i : ι} (o : Option i) (h : Heap ty) (hs : o.state ≠ none) :
    o.Unwrap h = load o.value h := by
  simp [Option.Unwrap, hs]

theorem MapOrElse_run {i j : ι} (o : Option i) (d : Unit → Exec ty (ty j))
    (f : ty i → Exec ty (ty j)) (v : ty i) (h : Heap ty)
    (hs : o.state ≠ none) (hl : load o.value h = Except.ok (v, h)) :
    MapOrElse o d f h = f v h := by
  simp [MapOrElse, hs, Exec.bind_apply, Exec.pure_apply, hl]

theorem UnwrapOrElse_run {i : ι} (o : Option i) (f : Unit → Exec ty (ty i)) (h : Heap ty)
    (hs : o.state ≠ none) : o.UnwrapOrElse f h = load o.value h := by
  simp [Option.UnwrapOrElse, hs, Exec.bind_apply, Exec.pure_apply]

theorem UnwrapOr_run {i : ι} (o : Option i) (d : ty i) (h : Heap ty)
    (hs : o.state ≠ none) : o.UnwrapOr d h = load o.value h := by
  simp [Option.UnwrapOr, hs, Exec.bind_apply, Exec.pure_apply]

theorem IsSomeAnd_run {i : ι} (o : Option i) (p : ty i → Exec ty Bool) (v : ty i)
    (h : Heap ty) (hs : o.state ≠ none) (hl : load o.value h = Except.ok (v, h)) :
    o.IsSomeAnd p h = p v h := by
  simp [Option.IsSomeAnd, hs, Exec.bind_apply, Exec.pure_apply, hl]

end

/-- C12: `From(nil)` is `None`.  For every pointer `p` to a cell, `From(p)` returns a present
Option whose `Unwrap()` gives the value `*p` had at the call; the Option holds a copy: after
`*p = w`, for any `w`, the cell of `p` holds `w` while `Unwrap()` on the Option still gives
the value of the time of the call. -/
theorem From_nil_is_None_else_copies {ι : Type} [DecidableEq ι] {ty : ι → Type} :
    (∀ (i : ι) (h : Heap ty), From (Ptr.nil : Ptr i) h = Except.ok (None, h)) ∧
    (∀ (i : ι) (a : Nat) (h : Heap ty) (hlt : a < (h i).length) (w : ty i), ∃ o h1,
        From (Ptr.addr a : Ptr i) h = Except.ok (o, h1) ∧ o.IsSome = true ∧
        o.Unwrap h1 = Except.ok ((h i)[a], h1) ∧
        ∃ h2, store (Ptr.addr a : Ptr i) w h1 = Except.ok ((), h2) ∧
          load (Ptr.addr a : Ptr i) h2 = Except.ok (w, h2) ∧
          o.Unwrap h2 = Except.ok ((h i)[a], h2)) := by
  refine ⟨fun i h => rfl, fun i a h hlt w => ?_⟩
  have hne : a ≠ (h i).length := Nat.ne_of_lt hlt
  refine ⟨{ value := Ptr.addr (h i).length, state := some },
    Function.update h i (h i ++ [(h i)[a]]), ?_, ?_, ?_,
    Function.update (Function.update h i (h i ++ [(h i)[a]])) i ((h i ++ [(h i)[a]]).set a w),
    ?_, ?_, ?_⟩
  · simp [From, Exec.bind_apply, Exec.pure_apply, load, hlt, Some_run]
  · simp [Option.IsSome]
  · simp [Option.Unwrap, some_ne_none, load_new_cell]
  · have : a < (h i).length + 1 := Nat.lt_succ_of_lt hlt
    simp [store, this]
  · have : a < (h i).length + 1 := Nat.lt_succ_of_lt hlt
    simp [load, this]
  · simp [Option.Unwrap, some_ne_none, load, List.getElem_set_ne hne]

/-- C12 at the heap with one cell holding 10: `From` of its address returns an Option that
unwraps to 10 before and after the cell is overwritten with 7. -/
theorem From_nil_is_None_else_copies_witness :
    ∃ (o : Option ()) (h1 : Heap exTy),
      From (Ptr.addr 0 : Ptr ()) exHeap = Except.ok (o, h1) ∧ o.IsSome = true ∧
      o.Unwrap h1 = Except.ok ((10 : Int), h1) ∧
      ∃ h2, store (Ptr.addr 0 : Ptr ()) (7 : Int) h1 = Except.ok ((), h2) ∧
        load (Ptr.addr 0 : Ptr ()) h2 = Except.ok ((7 : Int), h2) ∧
        o.Unwrap h2 = Except.ok ((10 : Int), h2) :=
  From_nil_is_None_else_copies.2 () 0 exHeap (by decide) 7

/-- C13: for every supplier `d` and callback `f`: on `Some(v)` the run of `MapOrElse` is the
run of `f` on `v` whatever `d` is, on `None` it is the run of `d` whatever `f` is; and on
every Option whose tag and payload agree it is one of the two: the run of `d` when the Option
is none, the run of `f` on the value `Unwrap` gives when it is not.  So exactly one of the two
is run, once. -/
theorem MapOrElse_runs_exactly_one {ι : Type} [DecidableEq ι] {ty : ι → Type} :
    (∀ (i j : ι) (d : Unit → Exec ty (ty j)) (f : ty i → Exec ty (ty j)) (v : ty i)
        (h : Heap ty), ∃ s h1,
        Some v h = Except.ok (s, h1) ∧ MapOrElse s d f h1 = f v h1) ∧
    (∀ (i j : ι) (d : Unit → Exec ty (ty j)) (f : ty i → Exec ty (ty j)) (h : Heap ty),
        MapOrElse (None : Option i) d f h = d () h) ∧
    (∀ (i j : ι) (d : Unit → Exec ty (ty j)) (f : ty i → Exec ty (ty j)) (o : Option i)
        (h : Heap ty), o.Inv h →
        (o.IsNone = true ∧ MapOrElse o d f h = d () h) ∨
        (o.IsNone = false ∧ ∃ v, o.Unwrap h = Except.ok (v, h) ∧ MapOrElse o d f h = f v h)) := by
  refine ⟨fun i j d f v h => ⟨_, _, Some_run v h, ?_⟩, fun i j d f h => ?_, ?_⟩
  · exact MapOrElse_run _ d f v _ some_ne_none (load_new_cell v h)
  · simp [MapOrElse, None, Exec.bind_apply, Exec.pure_apply]
  · intro i j d f o h hinv
    by_cases hs : o.state = none
    · left
      refine ⟨by simp [Option.IsNone, hs], ?_⟩
      simp [MapOrElse, hs, Exec.bind_apply, Exec.pure_apply]
    · right
      obtain ⟨v, hv⟩ := load_of_Inv_some o h hinv hs
      refine ⟨by simp [Option.IsNone, hs], v, ?_, MapOrElse_run o d f v h hs hv⟩
      rw [Unwrap_run o h hs, hv]

/-- C13 at the Option of `Some(10)` with a supplier that panics: the run is that of the
callback, which doubles the value. -/
theorem MapOrElse_runs_exactly_one_witness :
    exSome.Inv exHeap ∧
      MapOrElse exSome (fun _ => (goPanic "supplier" : Exec exTy (exTy ())))
        (fun x => pure (x * 2)) exHeap = Except.ok ((20 : Int), exHeap) :=
  ⟨by decide,
    ((MapOrElse_runs_exactly_one.2.2 () () (fun _ => (goPanic "supplier" : Exec exTy (exTy ())))
        (fun x => pure (x * 2)) exSome exHeap (by decide)).resolve_left
      (fun hl => absurd hl.1 (by decide))).2.elim
      (fun v hv => by
        have h10 : v = 10 := by
          have := hv.1
          simp [Option.Unwrap, exSome, some_ne_none, load, exHeap] at this
          exact this.symm
        rw [hv.2, h10]
        rfl)⟩

/-- C14: for every supplier `f` returning an Option, `Some(v).OrElse(f)` returns the receiver
itself on an unchanged heap whatever `f` is, so `f` is not run; `None().OrElse(f)` is the run
of `f`, once. -/
theorem OrElse_Some_keeps_None_runs_supplier {ι : Type} [DecidableEq ι] {ty : ι → Type} :
    (∀ (i : ι) (f : Unit → Exec ty (Option i)) (v : ty i) (h : Heap ty), ∃ s h1,
        Some v h = Except.ok (s, h1) ∧ s.OrElse f h1 = Except.ok (s, h1)) ∧
    (∀ (i : ι) (f : Unit → Exec ty (Option i)) (h : Heap ty),
        (None : Option i).OrElse f h = f () h) := by
  refine ⟨fun i f v h => ⟨_, _, Some_run v h, ?_⟩, fun i f h => ?_⟩
  · simp [Option.OrElse, some_ne_none, Exec.bind_apply, Exec.pure_apply]
  · simp [Option.OrElse, None, Exec.bind_apply, Exec.pure_apply]

/-- C15: for every supplier `f`, `Some(v).UnwrapOrElse(f)` returns `v` on an unchanged heap
whatever `f` is, so `f` is not run; `None().UnwrapOrElse(f)` is the run of `f`, once, and
returns what it returns; and on every Option whose tag and payload agree `UnwrapOrElse`
either is the run of `f` or returns a value, so it panics only when `f` does. -/
theorem UnwrapOrElse_Some_returns_None_runs_supplier {ι : Type} [DecidableEq ι]
    {ty : ι → Type} :
    (∀ (i : ι) (f : Unit → Exec ty (ty i)) (v : ty i) (h : Heap ty), ∃ s h1,
        Some v h = Except.ok (s, h1) ∧ s.UnwrapOrElse f h1 = Except.ok (v, h1)) ∧
    (∀ (i : ι) (f : Unit → Exec ty (ty i)) (h : Heap ty),
        (None : Option i).UnwrapOrElse f h = f () h) ∧
    (∀ (i : ι) (f : Unit → Exec ty (ty i)) (o : Option i) (h : Heap ty), o.Inv h →
        o.UnwrapOrElse f h = f () h ∨ ∃ v, o.UnwrapOrElse f h = Except.ok (v, h)) := by
  refine ⟨fun i f v h => ⟨_, _, Some_run v h, ?_⟩, fun i f h => ?_, ?_⟩
  · rw [UnwrapOrElse_run _ f _ some_ne_none]
    exact load_new_cell v h
  · simp [Option.UnwrapOrElse, None, Exec.bind_apply, Exec.pure_apply]
  · intro i f o h hinv
    by_cases hs : o.state = none
    · left
      simp [Option.UnwrapOrElse, hs, Exec.bind_apply, Exec.pure_apply]
    · right
      obtain ⟨v, hv⟩ := load_of_Inv_some o h hinv hs
      exact ⟨v, by rw [UnwrapOrElse_run o f h hs, hv]⟩

/-- C15 at the Option of `Some(10)` with a supplier that panics: `UnwrapOrElse` returns. -/
theorem UnwrapOrElse_Some_returns_None_runs_supplier_witness :
    exSome.Inv exHeap ∧
      ∃ v, exSome.UnwrapOrElse (fun _ => (goPanic "supplier" : Exec exTy (exTy ()))) exHeap
        = Except.ok (v, exHeap) :=
  ⟨by decide,
    (UnwrapOrElse_Some_returns_None_runs_supplier.2.2 ()
        (fun _ => (goPanic "supplier" : Exec exTy (exTy ()))) exSome exHeap
        (by decide)).resolve_left (by
      intro hl
      have hr : exSome.UnwrapOrElse (fun _ => (goPanic "supplier" : Exec exTy (exTy ())))
          exHeap = Except.ok ((10 : Int), exHeap) := rfl
      rw [hr] at hl
      cases hl)⟩

/-- C16: for every default `d` and value `v`, `Some(v).UnwrapOr(d)` returns `v` and
`None().UnwrapOr(d)` returns `d` itself, both on an unchanged heap; and on every Option
whose tag and payload agree `UnwrapOr` returns a value: it does not panic. -/
theorem UnwrapOr_Some_returns_None_returns_default {ι : Type} [DecidableEq ι]
    {ty : ι → Type} :
    (∀ (i : ι) (d v : ty i) (h : Heap ty), ∃ s h1,
        Some v h = Except.ok (s, h1) ∧ s.UnwrapOr d h1 = Except.ok (v, h1)) ∧
    (∀ (i : ι) (d : ty i) (h : Heap ty),
        (None : Option i).UnwrapOr d h = Except.ok (d, h)) ∧
    (∀ (i : ι) (d : ty i) (o : Option i) (h : Heap ty), o.Inv h →
        ∃ r, o.UnwrapOr d h = Except.ok (r, h)) := by
  refine ⟨fun i d v h => ⟨_, _, Some_run v h, ?_⟩, fun i d h => rfl, ?_⟩
  · rw [UnwrapOr_run _ d _ some_ne_none]
    exact load_new_cell v h
  · intro i d o h hinv
    by_cases hs : o.state = none
    · exact ⟨d, by simp [Option.UnwrapOr, hs, Exec.bind_apply, Exec.pure_apply]⟩
    · obtain ⟨v, hv⟩ := load_of_Inv_some o h hinv hs
      exact ⟨v, by rw [UnwrapOr_run o d h hs, hv]⟩

/-- C16 at the Option of `Some(10)` with default 20: `UnwrapOr` returns. -/
theorem UnwrapOr_Some_returns_None_returns_default_witness :
    exSome.Inv exHeap ∧ ∃ r, exSome.UnwrapOr (20 : Int) exHeap = Except.ok (r, exHeap) :=
  ⟨by decide,
    UnwrapOr_Some_returns_None_returns_default.2.2 () (20 : Int) exSome exHeap (by decide)⟩

/-- C17: for every predicate `p`, `None().IsSomeAnd(p)` returns false on an unchanged heap
whatever `p` is, so `p` is not run; for every `v`, `Some(v).IsSomeAnd(p)` is the run of `p`
on `v`, once, and for a predicate `g` without effects it returns `g v`. -/
theorem IsSomeAnd_None_false_Some_is_predicate {ι : Type} [DecidableEq ι] {ty : ι → Type} :
    (∀ (i : ι) (p : ty i → Exec ty Bool) (h : Heap ty),
        (None : Option i).IsSomeAnd p h = Except.ok (false, h)) ∧
    (∀ (i : ι) (p : ty i → Exec ty Bool) (v : ty i) (h : Heap ty), ∃ s h1,
        Some v h = Except.ok (s, h1) ∧ s.IsSomeAnd p h1 = p v h1) ∧
    (∀ (i : ι) (g : ty i → Bool) (v : ty i) (h : Heap ty), ∃ s h1,
        Some v h = Except.ok (s, h1) ∧
        s.IsSomeAnd (fun x => (pure (g x) : Exec ty Bool)) h1 = Except.ok (g v, h1)) := by
  refine ⟨fun i p h => rfl, fun i p v h => ⟨_, _, Some_run v h, ?_⟩,
    fun i g v h => ⟨_, _, Some_run v h, ?_⟩⟩
  · exact IsSomeAnd_run _ p v _ some_ne_none (load_new_cell v h)
  · rw [IsSomeAnd_run _ _ v _ some_ne_none (load_new_cell v h)]
    rfl

section
variable {ι : Type} {ty : ι → Type}

theorem Inspect_run {i : ι} (o : Option i) (f : ty i → Exec ty Unit) (v : ty i) (h : Heap ty)
    (hs : o.state = some) (hl : load o.value h = Except.ok (v, h)) :
    o.Inspect f h = f v h := by
  simp [Option.Inspect, hs, Exec.bind_apply, hl]

theorem Inspect_skip {i : ι} (o : Option i) (f : ty i → Exec ty Unit) (h : Heap ty)
    (hs : o.state ≠ some) : o.Inspect f h = Except.ok ((), h) := by
  simp [Option.Inspect, hs, Exec.pure_apply]

end

/-! ## Observation -/

/-- C18: for every callback `f`, `Some(v).Inspect(f)` is the run of `f` on `v`, once, and
`None().Inspect(f)` returns on an unchanged heap whatever `f` is, so `f` is not run and the
Option is as it was.  `Inspect` takes the Option by value and returns nothing, so the tag is
what it was; it hands `f` the value, not the cell.  So whatever a callback does to the
argument it receives (it reads the argument and the heap, assigns to its copy, allocates,
writes the cells of other types, panics), when `Some(v).Inspect` returns, `Unwrap` gives `v`
as it did before the call (the same value of type `T`: for a pointer, the same pointer);
and when the callback panics `Inspect` panics alike. -/
theorem Inspect_calls_once_and_leaves_Option {ι : Type} [DecidableEq ι] {ty : ι → Type} :
    (∀ (i : ι) (f : ty i → Exec ty Unit) (v : ty i) (h : Heap ty), ∃ s h1,
        Some v h = Except.ok (s, h1) ∧ s.Inspect f h1 = f v h1) ∧
    (∀ (i : ι) (f : ty i → Exec ty Unit) (h : Heap ty),
        (None : Option i).Inspect f h = Except.ok ((), h)) ∧
    (∀ (i : ι) (body : ty i → Heap ty → Except Fault (List (ty i) × Heap ty)) (v : ty i)
        (h : Heap ty), ∃ s h1,
        Some v h = Except.ok (s, h1) ∧ s.IsSome = true ∧ s.Unwrap h1 = Except.ok (v, h1) ∧
        (match body v h1 with
          | Except.ok _ => ∃ h2, s.Inspect (callbackOnCopy body) h1 = Except.ok ((), h2) ∧
              s.Unwrap h2 = Except.ok (v, h2)
          | Except.error e => s.Inspect (callbackOnCopy body) h1 = Except.error e)) := by
  refine ⟨fun i f v h => ⟨_, _, Some_run v h, ?_⟩, fun i f h => rfl,
    fun i body v h => ⟨_, _, Some_run v h, ?_, ?_, ?_⟩⟩
  · exact Inspect_run _ f v _ rfl (load_new_cell v h)
  · simp [Option.IsSome]
  · simp [Option.Unwrap, some_ne_none, load_new_cell]
  · rw [Inspect_run _ _ v _ rfl (load_new_cell v h)]
    cases hb : body v (Function.update h i (h i ++ [v])) with
    | error e => simp [callbackOnCopy, hb]
    | ok r =>
      obtain ⟨cells, h'⟩ := r
      refine ⟨Function.update h' i (h i ++ [v] ++ cells), ?_, ?_⟩
      · simp [callbackOnCopy, hb]
      · simp [Option.Unwrap, some_ne_none, load, List.getElem_append_right]

section
variable {ι : Type} {ty : ι → Type}

theorem Inv_of_Grows {i : ι} (o : Option i) (h h1 : Heap ty) (hinv : o.Inv h)
    (hg : Heap.Grows h h1) : o.Inv h1 := by
  rcases hinv with hn | ⟨hs, hp⟩
  · exact Or.inl hn
  · refine Or.inr ⟨hs, ?_⟩
    cases hv : o.value with
    | nil => rw [hv] at hp; simp [Ptr.allocated] at hp
    | addr a =>
      rw [hv] at hp
      have hlt : a < (h i).length := by simpa [Ptr.allocated] using hp
      simpa [Ptr.allocated] using Nat.lt_of_lt_of_le hlt (hg i)

theorem Inv_None {i : ι} (h : Heap ty) : (None : Option i).Inv h :=
  Or.inl ⟨rfl, rfl⟩

theorem Inv_new_cell [DecidableEq ι] {i : ι} (v : ty i) (h : Heap ty) :
    ({ value := Ptr.addr (h i).length, state := some } : Option i).Inv
      (Function.update h i (h i ++ [v])) := by
  refine Or.inr ⟨rfl, ?_⟩
  simp [Ptr.allocated]

theorem AndThen_run {i : ι} (o : Option i) (f : ty i → Exec ty (Option i)) (v : ty i)
    (h : Heap ty) (hs : o.state ≠ none) (hl : load o.value h = Except.ok (v, h)) :
    o.AndThen f h = f v h := by
  simp [Option.AndThen, hs, Exec.bind_apply, Exec.pure_apply, hl]

theorem Map_run [DecidableEq ι] {i j : ι} (o : Option i) (f : ty i → Exec ty (ty j))
    (v : ty i) (h : Heap ty) (hs : o.state ≠ none) (hl : load o.value h = Except.ok (v, h)) :
    Map o f h = (f v >>= fun u => Some u) h := by
  simp [Map, hs, Exec.bind_apply, Exec.pure_apply, hl]

theorem Inv_nil_state {i : ι} (o : Option i) (h : Heap ty) (hinv : o.Inv h)
    (hnil : o.value = Ptr.nil) : o.state = none := by
  rcases hinv with ⟨hs, _⟩ | ⟨_, hp⟩
  · exact hs
  · rw [hnil] at hp
    simp [Ptr.allocated] at hp

end

/-! ## The invariant -/

/-- C19: tag and payload agree on every Option of the API.  `Inv` says that the tag is none
or some and that it is some exactly when the payload pointer is not nil.  `None`, `Some` and
`From` return Options with `Inv`; `And` and `Or` of Options with `Inv` have it; `AndThen`,
`OrElse`, `Filter` and `Map` on an Option with `Inv`, with callbacks that return (Options
with `Inv`, on a heap that has only grown), return an Option with `Inv`.  Hence on an Option
with `Inv` whose payload pointer is nil every operation takes its none branch and
dereferences nothing; only `Unwrap` and `Expect` (by `panic`) and `UnwrapUnsafe` (by the
dereference) panic there. -/
theorem Inv_established_and_preserved {ι : Type} [DecidableEq ι] {ty : ι → Type} :
    (∀ (i : ι) (o : Option i) (h : Heap ty), o.Inv h →
        (o.state = none ∨ o.state = some) ∧ (o.state = some ↔ o.value ≠ Ptr.nil)) ∧
    (∀ (i : ι) (h : Heap ty), (None : Option i).Inv h) ∧
    (∀ (i : ι) (v : ty i) (h : Heap ty), ∃ s h1, Some v h = Except.ok (s, h1) ∧ s.Inv h1) ∧
    (∀ (i : ι) (h : Heap ty), ∃ o,
        From (Ptr.nil : Ptr i) h = Except.ok (o, h) ∧ o.Inv h) ∧
    (∀ (i : ι) (a : Nat) (h : Heap ty), a < (h i).length → ∃ o h1,
        From (Ptr.addr a : Ptr i) h = Except.ok (o, h1) ∧ o.Inv h1) ∧
    (∀ (i : ι) (a b : Option i) (h : Heap ty), a.Inv h → b.Inv h →
        (a.And b).Inv h ∧ (a.Or b).Inv h) ∧
    (∀ (i : ι) (o : Option i) (f : ty i → Exec ty (Option i)) (h : Heap ty), o.Inv h →
        (∀ x, ∃ r h1, f x h = Except.ok (r, h1) ∧ r.Inv h1) →
        ∃ r h1, o.AndThen f h = Except.ok (r, h1) ∧ r.Inv h1) ∧
    (∀ (i : ι) (o : Option i) (f : Unit → Exec ty (Option i)) (h : Heap ty), o.Inv h →
        (∃ r h1, f () h = Except.ok (r, h1) ∧ r.Inv h1) →
        ∃ r h1, o.OrElse f h = Except.ok (r, h1) ∧ r.Inv h1) ∧
    (∀ (i : ι) (o : Option i) (p : ty i → Exec ty Bool) (h : Heap ty), o.Inv h →
        (∀ x, ∃ b h1, p x h = Except.ok (b, h1) ∧ Heap.Grows h h1) →
        ∃ r h1, o.Filter p h = Except.ok (r, h1) ∧ r.Inv h1) ∧
    (∀ (i j : ι) (o : Option i) (f : ty i → Exec ty (ty j)) (h : Heap ty), o.Inv h →
        (∀ x, ∃ u h1, f x h = Except.ok (u, h1)) →
        ∃ r h1, Map o f h = Except.ok (r, h1) ∧ r.Inv h1) ∧
    (∀ (i j : ι) (o b : Option i) (h : Heap ty), o.Inv h → o.value = Ptr.nil →
        (∀ p : ty i → Exec ty Bool, o.IsSomeAnd p h = Except.ok (false, h)) ∧
        o.And b = None ∧ o.Or b = b ∧
        (∀ f : ty i → Exec ty (Option i), o.AndThen f h = Except.ok (None, h)) ∧
        (∀ f : ty i → Exec ty (ty j), Map o f h = Except.ok (None, h)) ∧
        (∀ (d : ty j) (f : ty i → Exec ty (ty j)), MapOr o d f h = Except.ok (d, h)) ∧
        (∀ (d : Unit → Exec ty (ty j)) (f : ty i → Exec ty (ty j)),
          MapOrElse o d f h = d () h) ∧
        (∀ f : Unit → Exec ty (Option i), o.OrElse f h = f () h) ∧
        (∀ f : ty i → Exec ty Unit, o.Inspect f h = Except.ok ((), h)) ∧
        (∀ p : ty i → Exec ty Bool, o.Filter p h = Except.ok (None, h)) ∧
        (∀ d : ty i, o.UnwrapOr d h = Except.ok (d, h)) ∧
        (∀ f : Unit → Exec ty (ty i), o.UnwrapOrElse f h = f () h) ∧
        o.Unwrap h = Except.error (Fault.panic "unwrap a none option") ∧
        (∀ msg : String, o.Expect msg h = Except.error (Fault.panic msg)) ∧
        o.UnwrapUnsafe h = Except.error Fault.nilDereference) := by
  refine ⟨?_, fun i h => Inv_None h, fun i v h => ⟨_, _, Some_run v h, Inv_new_cell v h⟩,
    fun i h => ⟨None, rfl, Inv_None h⟩, ?_, ?_, ?_, ?_, ?_, ?_, ?_⟩
  · intro i o h hinv
    rcases hinv with ⟨hs, hp⟩ | ⟨hs, hp⟩
    · exact ⟨Or.inl hs, by simp [hs, hp, some_ne_none.symm]⟩
    · refine ⟨Or.inr hs, ?_⟩
      cases hv : o.value with
      | nil => rw [hv] at hp; simp [Ptr.allocated] at hp
      | addr a => simp [hs]
  · intro i a h hlt
    refine ⟨_, _, ?_, Inv_new_cell (h i)[a] h⟩
    simp [From, Exec.bind_apply, Exec.pure_apply, load, hlt, Some_run]
  · intro i a b h ha hb
    constructor
    · unfold Option.And
      split
      · exact Inv_None h
      · exact hb
    · unfold Option.Or
      split
      · exact hb
      · exact ha
  · intro i o f h hinv hf
    by_cases hs : o.state = none
    · exact ⟨None, h, by simp [Option.AndThen, hs, Exec.pure_apply], Inv_None h⟩
    · obtain ⟨v, hv⟩ := load_of_Inv_some o h hinv hs
      obtain ⟨r, h1, hr, hri⟩ := hf v
      exact ⟨r, h1, by rw [AndThen_run o f v h hs hv, hr], hri⟩
  · intro i o f h hinv hf
    by_cases hs : o.state = none
    · obtain ⟨r, h1, hr, hri⟩ := hf
      exact ⟨r, h1, by simp [Option.OrElse, hs, Exec.bind_apply, Exec.pure_apply, hr], hri⟩
    · exact ⟨o, h, by simp [Option.OrElse, hs, Exec.pure_apply], hinv⟩
  · intro i o p h hinv hp
    by_cases hs : o.state = none
    · exact ⟨None, h, by simp [Option.Filter, hs, Exec.pure_apply], Inv_None h⟩
    · obtain ⟨v, hv⟩ := load_of_Inv_some o h hinv hs
      obtain ⟨b, h1, hb, hg⟩ := hp v
      refine ⟨if b = true then o else None, h1, by rw [Filter_run o p v h hs hv, hb], ?_⟩
      cases b
      · exact Inv_None h1
      · exact Inv_of_Grows o h h1 hinv hg
  · intro i j o f h hinv hf
    by_cases hs : o.state = none
    · exact ⟨None, h, by simp [Map, hs, Exec.pure_apply], Inv_None h⟩
    · obtain ⟨v, hv⟩ := load_of_Inv_some o h hinv hs
      obtain ⟨u, h1, hu⟩ := hf v
      exact ⟨_, _, by rw [Map_run o f v h hs hv, Exec.bind_apply, hu]; exact Some_run u h1,
        Inv_new_cell u h1⟩
  · intro i j o b h hinv hnil
    have hs : o.state = none := Inv_nil_state o h hinv hnil
    have hne : o.state ≠ some := by rw [hs]; exact some_ne_none.symm
    refine ⟨?_, ?_, ?_, ?_, ?_, ?_, ?_, ?_, ?_, ?_, ?_, ?_, ?_, ?_, ?_⟩
    · intro p; simp [Option.IsSomeAnd, hs, Exec.pure_apply]
    · simp [Option.And, hs]
    · simp [Option.Or, hs]
    · intro f; simp [Option.AndThen, hs, Exec.pure_apply]
    · intro f; simp [Map, hs, Exec.pure_apply]
    · intro d f; simp [MapOr, hs, Exec.pure_apply]
    · intro d f; simp [MapOrElse, hs, Exec.bind_apply, Exec.pure_apply]
    · intro f; simp [Option.OrElse, hs, Exec.bind_apply, Exec.pure_apply]
    · intro f; exact Inspect_skip o f h hne
    · intro p; simp [Option.Filter, hs, Exec.pure_apply]
    · intro d; simp [Option.UnwrapOr, hs, Exec.pure_apply]
    · intro f; simp [Option.UnwrapOrElse, hs, Exec.bind_apply, Exec.pure_apply]
    · simp [Option.Unwrap, hs, goPanic]
    · intro msg; simp [Option.Expect, hs, goPanic]
    · simp [Option.UnwrapUnsafe, hnil, load]

/-- C19 at the Option of `Some(10)`: it has `Inv`, so have its `And` and `Or` with `None`,
and `Filter` with the predicate `5 < x` returns an Option with `Inv`. -/
theorem Inv_established_and_preserved_witness :
    exSome.Inv exHeap ∧ (None : Option ()).Inv exHeap ∧
      (exSome.And None).Inv exHeap ∧ (exSome.Or None).Inv exHeap ∧
      ∃ r h1, exSome.Filter (fun x => (pure (decide (5 < x)) : Exec exTy Bool)) exHeap
        = Except.ok (r, h1) ∧ r.Inv h1 :=
  ⟨by decide, by decide,
    (Inv_established_and_preserved.2.2.2.2.2.1 () exSome None exHeap
      (by decide) (by decide)).1,
    (Inv_established_and_preserved.2.2.2.2.2.1 () exSome None exHeap
      (by decide) (by decide)).2,
    Inv_established_and_preserved.2.2.2.2.2.2.2.2.1 () exSome
      (fun x => (pure (decide (5 < x)) : Exec exTy Bool)) exHeap (by decide)
      (fun x => ⟨decide (5 < x), exHeap, rfl, fun _ => Nat.le_refl _⟩)⟩

/-! ## The zero value -/

/-- C20: the zero value `Option[T]{}` is the empty Option: it is `None[T]()` field for field,
its `IsNone()` is true and its `IsSome()` false, its tag and payload agree, and every
operation does on it what it does on `None[T]()`. -/
theorem zero_value_is_None {ι : Type} [DecidableEq ι] {ty : ι → Type} :
    (∀ i : ι, (Option.zero : Option i) = None) ∧
    (∀ i : ι, (Option.zero : Option i).IsNone = true ∧
        (Option.zero : Option i).IsSome = false) ∧
    (∀ (i : ι) (h : Heap ty), (Option.zero : Option i).Inv h) ∧
    (∀ (i j : ι) (b : Option i),
        (∀ p : ty i → Exec ty Bool,
          (Option.zero : Option i).IsSomeAnd p = (None : Option i).IsSomeAnd p) ∧
        (Option.zero : Option i).And b = (None : Option i).And b ∧
        b.And (Option.zero : Option i) = b.And None ∧
        (Option.zero : Option i).Or b = (None : Option i).Or b ∧
        b.Or (Option.zero : Option i) = b.Or None ∧
        (∀ f : ty i → Exec ty (Option i),
          (Option.zero : Option i).AndThen f = (None : Option i).AndThen f) ∧
        (∀ f : ty i → Exec ty (ty j),
          Map (Option.zero : Option i) f = Map (None : Option i) f) ∧
        (∀ (d : ty j) (f : ty i → Exec ty (ty j)),
          MapOr (Option.zero : Option i) d f = MapOr (None : Option i) d f) ∧
        (∀ (d : Unit → Exec ty (ty j)) (f : ty i → Exec ty (ty j)),
          MapOrElse (Option.zero : Option i) d f = MapOrElse (None : Option i) d f) ∧
        (∀ f : Unit → Exec ty (Option i),
          (Option.zero : Option i).OrElse f = (None : Option i).OrElse f) ∧
        (∀ f : ty i → Exec ty Unit,
          (Option.zero : Option i).Inspect f = (None : Option i).Inspect f) ∧
        (∀ p : ty i → Exec ty Bool,
          (Option.zero : Option i).Filter p = (None : Option i).Filter p) ∧
        (∀ msg : String,
          ((Option.zero : Option i).Expect msg : Exec ty (ty i)) = (None : Option i).Expect msg) ∧
        ((Option.zero : Option i).Unwrap : Exec ty (ty i)) = (None : Option i).Unwrap ∧
        (∀ d : ty i,
          ((Option.zero : Option i).UnwrapOr d : Exec ty (ty i)) = (None : Option i).UnwrapOr d) ∧
        (∀ f : Unit → Exec ty (ty i),
          (Option.zero : Option i).UnwrapOrElse f = (None : Option i).UnwrapOrElse f) ∧
        ((Option.zero : Option i).UnwrapUnsafe : Exec ty (ty i))
          = (None : Option i).UnwrapUnsafe) ∧
    (∀ (i : ι) (h : Heap ty),
        ((Option.zero : Option i).Unwrap : Exec ty (ty i)) h
          = Except.error (Fault.panic "unwrap a none option") ∧
        (∀ d : ty i, (Option.zero : Option i).UnwrapOr d h = Except.ok (d, h))) := by
  have hz : ∀ i : ι, (Option.zero : Option i) = None := fun i => rfl
  refine ⟨hz, fun i => ⟨rfl, rfl⟩, fun i h => Or.inl ⟨rfl, rfl⟩, ?_, fun i h => ⟨rfl, fun d => rfl⟩⟩
  intro i j b
  simp only [hz, implies_true, and_self]

end option
